import Mathlib

/-!
Shallow embedding of the Grafana-to-Perses bulk migrator (`main.go`) and
proofs about the claims of its specification.

Strings are modelled as `List Char` (`Str`).  Go's `strings.ToLower` is
modelled by `Char.toLower`, which agrees with Go on the ASCII range; every
theorem below only depends on its behaviour on ASCII characters.
-/

namespace GrafanaToPerses

abbrev Str := List Char

/-- Literal helper: a Lean string literal as a `Str`. -/
def lit (s : String) : Str := s.toList

/-- Character class `[a-z0-9]` used by the sanitizer and the filename regex. -/
def isLowerAlnum (c : Char) : Bool :=
  ('a' ≤ c && c ≤ 'z') || ('0' ≤ c && c ≤ '9')

/-- Character class `[-a-z0-9]` (the characters admitted by the filename regex). -/
def isSlugChar (c : Char) : Bool := isLowerAlnum c || (c = '-')

/-- Decimal digit, as used by the `20060102-1504` timestamp format. -/
def isDigitCh (c : Char) : Bool := '0' ≤ c && c ≤ '9'

/-- First half of the regex replacement `[^a-z0-9]+` → `-` from
`sanitizeFilenameForRegex` (main.go:757-758): replace each character
outside `[a-z0-9]` by a hyphen. -/
def hyphenizeNonAlnum (l : Str) : Str :=
  l.map fun c => if isLowerAlnum c then c else '-'

/-- Second half of the replacement: collapse each run of hyphens to a single
hyphen, so that each maximal run of non-alphanumerics yields one hyphen. -/
def squeezeHyphens : Str → Str
  | [] => []
  | [c] => [c]
  | c :: d :: cs =>
    if c = '-' && d = '-' then squeezeHyphens (d :: cs)
    else c :: squeezeHyphens (d :: cs)

/-- Model of `regexp.MustCompile(&#96;[^a-z0-9]+&#96;).ReplaceAllString(result, "-")`
(main.go:757-758): each maximal run of characters outside `[a-z0-9]` becomes
a single hyphen. -/
def collapseNonAlnum (l : Str) : Str := squeezeHyphens (hyphenizeNonAlnum l)

/-- Model of Go `strings.Trim(result, "-")` (main.go:761): remove leading and
trailing hyphens. -/
def trimHyphens (l : Str) : Str :=
  ((l.dropWhile (fun c => c == '-')).reverse.dropWhile (fun c => c == '-')).reverse

/-- `sanitizeFilenameForRegex` (main.go:752-769): lowercase, replace runs of
non-alphanumerics by a hyphen, trim hyphens, and fall back to the fixed
placeholder `"dashboard"` when the result is empty. -/
def sanitizeFilenameForRegex (title : Str) : Str :=
  let result := title.map Char.toLower
  let result := collapseNonAlnum result
  let result := trimHyphens result
  if result = [] then lit "dashboard" else result

/-- Denotation of the regex `^[a-z0-9]([-a-z0-9]*[a-z0-9])?$`
(main.go:778): nonempty, first and last characters in `[a-z0-9]`, every
character in `[-a-z0-9]`. -/
def matchesFilenamePattern : Str → Bool
  | [] => false
  | c :: cs => isLowerAlnum c && cs.all isSlugChar && isLowerAlnum (cs.getLastD c)

/-- Model of Go `strings.TrimSuffix(filename, ".json")` (main.go:774). -/
def trimSuffixJson (l : Str) : Str :=
  if (lit ".json").isSuffixOf l then l.take (l.length - (lit ".json").length) else l

/-- `validateFilenameRegex` (main.go:771-784): strip a `.json` suffix and
match the basename against the slug pattern. -/
def validateFilenameRegex (filename : Str) : Bool :=
  matchesFilenamePattern (trimSuffixJson filename)

example : sanitizeFilenameForRegex (lit "My Dashboard! v2.0") = lit "my-dashboard-v2-0" := by decide
example : sanitizeFilenameForRegex (lit "") = lit "dashboard" := by decide
example : sanitizeFilenameForRegex (lit "---") = lit "dashboard" := by decide
example : validateFilenameRegex (lit "my-dash-20251011-1504.json") = true := by decide
example : validateFilenameRegex (lit "My_dash.json") = false := by decide

/-! ### Structural invariants of sanitized slugs -/

/-- No two adjacent hyphens. -/
def NoDouble (l : Str) : Prop := List.Chain' (fun a b => ¬(a = '-' ∧ b = '-')) l

/-- Executable version of `NoDouble`. -/
def noDoubleB : Str → Bool
  | [] => true
  | [_] => true
  | c :: d :: cs => !(c = '-' && d = '-') && noDoubleB (d :: cs)

theorem noDouble_iff (l : Str) : NoDouble l ↔ noDoubleB l = true := by
  induction l using noDoubleB.induct with
  | case1 => simp [NoDouble, noDoubleB]
  | case2 c => simp [NoDouble, noDoubleB]
  | case3 c d cs ih =>
    rw [NoDouble, List.chain'_cons, noDoubleB]
    rw [NoDouble] at ih
    simp only [Bool.and_eq_true, Bool.not_eq_true', Bool.and_eq_false_iff]
    constructor
    · rintro ⟨hr, hc⟩
      refine ⟨?_, ih.mp hc⟩
      by_cases h1 : c = '-'
      · by_cases h2 : d = '-'
        · exact absurd ⟨h1, h2⟩ hr
        · right; simpa using h2
      · left; simpa using h1
    · rintro ⟨hr, hc⟩
      refine ⟨?_, ih.mpr hc⟩
      rintro ⟨rfl, rfl⟩
      simp at hr

/-- The invariant that characterizes fixed points of the sanitizer: nonempty,
only slug characters, no leading/trailing hyphen, no adjacent hyphens. -/
def GoodSlug (s : Str) : Prop :=
  s ≠ [] ∧ (∀ c ∈ s, isSlugChar c = true) ∧
  s.head? ≠ some '-' ∧ s.getLast? ≠ some '-' ∧ NoDouble s

theorem mem_hyphenize {l : Str} {c : Char} (h : c ∈ hyphenizeNonAlnum l) :
    isSlugChar c = true := by
  simp only [hyphenizeNonAlnum, List.mem_map] at h
  obtain ⟨a, _, ha⟩ := h
  by_cases hla : isLowerAlnum a = true
  · simp [hla] at ha
    simp [isSlugChar, ← ha, hla]
  · simp [hla] at ha
    simp [isSlugChar, ← ha]

theorem squeeze_subset {l : Str} {c : Char} (h : c ∈ squeezeHyphens l) : c ∈ l := by
  induction l using squeezeHyphens.induct with
  | case1 => simp [squeezeHyphens] at h
  | case2 d => simpa [squeezeHyphens] using h
  | case3 a d cs hcond ih =>
    rw [squeezeHyphens, if_pos hcond] at h
    exact List.mem_cons_of_mem a (ih h)
  | case4 a d cs hcond ih =>
    rw [squeezeHyphens, if_neg hcond] at h
    rcases List.mem_cons.mp h with h | h
    · simp [h]
    · exact List.mem_cons_of_mem a (ih h)

theorem squeeze_cons (cs : Str) (d : Char) :
    ∃ e tl, squeezeHyphens (d :: cs) = e :: tl ∧ (e = '-' → d = '-') := by
  induction cs generalizing d with
  | nil => exact ⟨d, [], rfl, fun h => h⟩
  | cons d' cs' ih =>
    by_cases hcond : (d = '-' && d' = '-') = true
    · obtain ⟨e, tl, he, himp⟩ := ih d'
      refine ⟨e, tl, ?_, ?_⟩
      · rw [squeezeHyphens, if_pos hcond, he]
      · intro _
        simp only [Bool.and_eq_true, decide_eq_true_eq] at hcond
        exact hcond.1
    · exact ⟨d, squeezeHyphens (d' :: cs'), by rw [squeezeHyphens, if_neg hcond], fun h => h⟩

theorem squeeze_noDouble (l : Str) : NoDouble (squeezeHyphens l) := by
  induction l using squeezeHyphens.induct with
  | case1 => simp [squeezeHyphens, NoDouble]
  | case2 d => simp [squeezeHyphens, NoDouble]
  | case3 a d cs hcond ih =>
    rw [NoDouble, squeezeHyphens, if_pos hcond]
    exact ih
  | case4 a d cs hcond ih =>
    rw [NoDouble, squeezeHyphens, if_neg hcond]
    obtain ⟨e, tl, he, himp⟩ := squeeze_cons cs d
    rw [he]
    refine List.chain'_cons.mpr ⟨?_, by rw [← he]; exact ih⟩
    rintro ⟨rfl, rfl⟩
    simp [himp rfl] at hcond

theorem squeeze_fix {l : Str} (h : NoDouble l) : squeezeHyphens l = l := by
  induction l using squeezeHyphens.induct with
  | case1 => rfl
  | case2 d => rfl
  | case3 a d cs hcond ih =>
    exfalso
    simp only [Bool.and_eq_true, decide_eq_true_eq] at hcond
    exact (List.chain'_cons.mp h).1 hcond
  | case4 a d cs hcond ih =>
    rw [squeezeHyphens, if_neg hcond, ih (List.chain'_cons.mp h).2]

theorem hyphenize_fix {l : Str} (h : ∀ c ∈ l, isSlugChar c = true) :
    hyphenizeNonAlnum l = l := by
  induction l with
  | nil => rfl
  | cons c cs ih =>
    have hc := h c (List.mem_cons_self c cs)
    have tail : hyphenizeNonAlnum cs = cs := ih fun d hd => h d (List.mem_cons_of_mem c hd)
    simp only [hyphenizeNonAlnum, List.map_cons] at tail ⊢
    rw [tail]
    by_cases hla : isLowerAlnum c = true
    · simp [hla]
    · have : c = '-' := by
        simp only [isSlugChar, Bool.or_eq_true, decide_eq_true_eq] at hc
        tauto
      simp [hla, this]

theorem mem_collapse {l : Str} {c : Char} (h : c ∈ collapseNonAlnum l) :
    isSlugChar c = true :=
  mem_hyphenize (squeeze_subset h)

theorem noDouble_collapse (l : Str) : NoDouble (collapseNonAlnum l) :=
  squeeze_noDouble _

theorem collapse_fix {l : Str} (hmem : ∀ c ∈ l, isSlugChar c = true)
    (hnd : NoDouble l) : collapseNonAlnum l = l := by
  rw [collapseNonAlnum, hyphenize_fix hmem, squeeze_fix hnd]

theorem trim_subset {l : Str} {c : Char} (h : c ∈ trimHyphens l) : c ∈ l := by
  rw [trimHyphens, List.mem_reverse] at h
  have h1 := (List.dropWhile_suffix (l := (l.dropWhile (fun c => c == '-')).reverse)
    (fun c => c == '-')).sublist.subset h
  rw [List.mem_reverse] at h1
  exact (List.dropWhile_suffix (fun c => c == '-')).sublist.subset h1

theorem noDouble_rev {l : Str} (h : NoDouble l) : NoDouble l.reverse := by
  rw [NoDouble, List.chain'_reverse]
  exact h.imp fun a b hab => by tauto

theorem trim_noDouble {l : Str} (h : NoDouble l) : NoDouble (trimHyphens l) := by
  have h1 : NoDouble (l.dropWhile (fun c => c == '-')) :=
    h.suffix (List.dropWhile_suffix _)
  have h2 : NoDouble ((l.dropWhile (fun c => c == '-')).reverse.dropWhile (fun c => c == '-')) :=
    (noDouble_rev h1).suffix (List.dropWhile_suffix _)
  exact noDouble_rev h2

theorem head_dropWhile_ne_hyphen {l : Str} {c : Char}
    (h : (l.dropWhile (fun c => c == '-')).head? = some c) : c ≠ '-' := by
  have := List.head?_dropWhile_not (fun c => c == '-') l
  rw [h] at this
  simpa using this

theorem trim_head {l : Str} {c : Char} (h : (trimHyphens l).head? = some c) : c ≠ '-' := by
  rw [trimHyphens, List.head?_reverse] at h
  set a := l.dropWhile (fun c => c == '-') with ha
  set b := a.reverse.dropWhile (fun c => c == '-') with hb
  have hbne : b ≠ [] := by
    intro hnil
    rw [hnil] at h
    simp at h
  obtain ⟨pre, hpre⟩ := List.dropWhile_suffix (l := a.reverse) (fun c => c == '-')
  rw [← hb] at hpre
  have : b.getLast? = a.reverse.getLast? := by
    rw [← hpre, List.getLast?_append_of_ne_nil pre hbne]
  rw [this, List.getLast?_reverse] at h
  exact head_dropWhile_ne_hyphen h

theorem trim_last {l : Str} {c : Char} (h : (trimHyphens l).getLast? = some c) : c ≠ '-' := by
  rw [trimHyphens, List.getLast?_reverse] at h
  exact head_dropWhile_ne_hyphen h

theorem dropWhile_eq_self_of_head {p : Char → Bool} {l : Str}
    (h : ∀ c, l.head? = some c → p c = false) : l.dropWhile p = l := by
  cases l with
  | nil => rfl
  | cons c cs => simp [List.dropWhile_cons, h c rfl]

theorem trim_fix {s : Str} (hh : s.head? ≠ some '-') (hl : s.getLast? ≠ some '-') :
    trimHyphens s = s := by
  rw [trimHyphens]
  rw [dropWhile_eq_self_of_head (p := fun c => c == '-') (l := s) ?_]
  · rw [dropWhile_eq_self_of_head (p := fun c => c == '-') (l := s.reverse) ?_,
      List.reverse_reverse]
    intro c hc
    rw [List.head?_reverse] at hc
    simp only [beq_eq_false_iff_ne, ne_eq]
    rintro rfl
    exact hl hc
  · intro c hc
    simp only [beq_eq_false_iff_ne, ne_eq]
    rintro rfl
    exact hh hc

theorem goodSlug_sanitize (x : Str) : GoodSlug (sanitizeFilenameForRegex x) := by
  rw [sanitizeFilenameForRegex]
  set t := trimHyphens (collapseNonAlnum (x.map Char.toLower)) with ht
  by_cases hnil : t = []
  · rw [if_pos hnil]
    exact ⟨by decide, by decide, by decide, by decide, (noDouble_iff _).mpr (by decide)⟩
  · simp only [if_neg hnil]
    refine ⟨hnil, ?_, ?_, ?_, ?_⟩
    · intro c hc
      exact mem_collapse (trim_subset hc)
    · intro hcontra
      have : ('-' : Char) ≠ '-' := trim_head hcontra
      exact this rfl
    · intro hcontra
      have : ('-' : Char) ≠ '-' := trim_last hcontra
      exact this rfl
    · exact trim_noDouble (noDouble_collapse _)

theorem toLower_id {c : Char} (h : isSlugChar c = true) : c.toLower = c := by
  unfold Char.toLower
  simp only [isSlugChar, isLowerAlnum, Bool.or_eq_true, Bool.and_eq_true,
    decide_eq_true_eq] at h
  have hv : c.val.toNat < 65 ∨ 90 < c.val.toNat := by
    rcases h with (⟨h1, _⟩ | ⟨h1, h2⟩) | h3
    · right
      rw [Char.le_def] at h1
      have h1' : ('a' : Char).val.toNat ≤ c.val.toNat := h1
      have : ('a' : Char).val.toNat = 97 := by decide
      omega
    · left
      rw [Char.le_def] at h2
      have h2' : c.val.toNat ≤ ('9' : Char).val.toNat := h2
      have : ('9' : Char).val.toNat = 57 := by decide
      omega
    · subst h3; left; decide
  simp only [Char.toNat]
  split
  · next hcond =>
    simp only [Bool.and_eq_true, decide_eq_true_eq, ge_iff_le] at hcond
    omega
  · rfl

theorem sanitize_fix {s : Str} (h : GoodSlug s) : sanitizeFilenameForRegex s = s := by
  obtain ⟨hne, hmem, hh, hl, hnd⟩ := h
  rw [sanitizeFilenameForRegex]
  have h1 : s.map Char.toLower = s := by
    have : s.map Char.toLower = s.map id :=
      List.map_congr_left fun c hc => toLower_id (hmem c hc)
    rw [this, List.map_id]
  rw [h1, collapse_fix hmem hnd, trim_fix hh hl, if_neg hne]

theorem matches_of_goodSlug {s : Str} (h : GoodSlug s) :
    matchesFilenamePattern s = true := by
  obtain ⟨hne, hmem, hh, hl, _⟩ := h
  cases s with
  | nil => exact absurd rfl hne
  | cons c cs =>
    have hcslug : isSlugChar c = true := hmem c (List.mem_cons_self c cs)
    have hcne : c ≠ '-' := by
      intro hc
      exact hh (by rw [hc]; rfl)
    have hcal : isLowerAlnum c = true := by
      simp only [isSlugChar, Bool.or_eq_true, decide_eq_true_eq] at hcslug
      tauto
    rw [matchesFilenamePattern]
    refine (Bool.and_eq_true _ _).mpr ⟨(Bool.and_eq_true _ _).mpr ⟨hcal, ?_⟩, ?_⟩
    · exact List.all_eq_true.mpr fun d hd => hmem d (List.mem_cons_of_mem c hd)
    · cases hcs : cs with
      | nil => simpa [hcs] using hcal
      | cons d ds =>
        have hcsnil : cs ≠ [] := by simp [hcs]
        have hgl : (c :: cs).getLast? = cs.getLast? := by
          have := List.getLast?_append_of_ne_nil [c] hcsnil
          simpa using this
        obtain ⟨e, he⟩ : ∃ e, cs.getLast? = some e := by
          cases h : cs.getLast? with
          | none => rw [List.getLast?_eq_none_iff] at h; exact absurd h hcsnil
          | some e => exact ⟨e, rfl⟩
        have heslug : isSlugChar e = true := by
          refine hmem e (List.mem_cons_of_mem c ?_)
          exact List.mem_of_mem_getLast? (by rw [he]; rfl)
        have hene : e ≠ '-' := by
          intro hc
          exact hl (by rw [hgl, he, hc])
        have heal : isLowerAlnum e = true := by
          simp only [isSlugChar, Bool.or_eq_true, decide_eq_true_eq] at heslug
          tauto
        rw [← hcs]
        rw [List.getLastD_eq_getLast?, he]
        simpa using heal

theorem trimSuffixJson_of_goodSlug {s : Str} (h : GoodSlug s) :
    trimSuffixJson s = s := by
  rw [trimSuffixJson]
  rw [if_neg]
  intro hsuf
  rw [List.isSuffixOf_iff_suffix] at hsuf
  have hdot : ('.' : Char) ∈ s := hsuf.sublist.subset (by decide)
  have := h.2.1 '.' hdot
  simp [isSlugChar, isLowerAlnum] at this

/-- Claim C7: `sanitizeFilenameForRegex` is idempotent — sanitizing an
already-sanitized string returns it unchanged. -/
theorem sanitize_idempotent (x : Str) :
    sanitizeFilenameForRegex (sanitizeFilenameForRegex x) = sanitizeFilenameForRegex x :=
  sanitize_fix (goodSlug_sanitize x)

/-- Claim C6: every output of `sanitizeFilenameForRegex` passes
`validateFilenameRegex`, including the inputs that sanitize to the fixed
placeholder `"dashboard"` (such as the empty string). -/
theorem validate_sanitize :
    (∀ title : Str, validateFilenameRegex (sanitizeFilenameForRegex title) = true) ∧
    sanitizeFilenameForRegex (lit "") = lit "dashboard" := by
  constructor
  · intro title
    rw [validateFilenameRegex, trimSuffixJson_of_goodSlug (goodSlug_sanitize title)]
    exact matches_of_goodSlug (goodSlug_sanitize title)
  · decide

/-! ### JSON model

Decoded JSON documents (`map[string]any` after `json.Unmarshal`). Go maps
are unordered, so equality of objects is always stated through `jlookup`;
keys in a decoded map are unique, and `jerase`/`jinsert` model Go's
`delete(m, k)` and `m[k] = v`. -/

inductive JValue where
  | null
  | bool (b : Bool)
  | num (n : Int)
  | str (s : Str)
  | arr (elems : List JValue)
  | obj (fields : List (Str × JValue))

abbrev JObj := List (Str × JValue)

def jlookup : JObj → Str → Option JValue
  | [], _ => none
  | (k', v) :: rest, k => if k' = k then some v else jlookup rest k

/-- Model of Go `delete(m, k)`. -/
def jerase : JObj → Str → JObj
  | [], _ => []
  | (k', v) :: rest, k => if k' = k then jerase rest k else (k', v) :: jerase rest k

/-- Model of Go `m[k] = v`. -/
def jinsert (fields : JObj) (k : Str) (v : JValue) : JObj :=
  jerase fields k ++ [(k, v)]

theorem jlookup_jerase_self (fields : JObj) (k : Str) :
    jlookup (jerase fields k) k = none := by
  induction fields with
  | nil => rfl
  | cons kv rest ih =>
    obtain ⟨k₀, v₀⟩ := kv
    by_cases h : k₀ = k
    · simpa [jerase, h] using ih
    · simpa [jerase, jlookup, h] using ih

theorem jlookup_jerase_ne (fields : JObj) {k k' : Str} (h : k' ≠ k) :
    jlookup (jerase fields k) k' = jlookup fields k' := by
  induction fields with
  | nil => rfl
  | cons kv rest ih =>
    obtain ⟨k₀, v₀⟩ := kv
    by_cases hk : k₀ = k
    · have hne : ¬ k = k' := fun hc => h hc.symm
      simpa [jerase, jlookup, hk, hne] using ih
    · by_cases hk' : k₀ = k'
      · simp [jerase, jlookup, hk, hk', h]
      · simpa [jerase, jlookup, hk, hk'] using ih

theorem jlookup_append (a b : JObj) (k : Str) :
    jlookup (a ++ b) k = ((jlookup a k).or (jlookup b k)) := by
  induction a with
  | nil => simp [jlookup]
  | cons kv rest ih =>
    by_cases h : kv.1 = k
    · simp [jlookup, h]
    · simpa [jlookup, h] using ih

theorem jlookup_jinsert_self (fields : JObj) (k : Str) (v : JValue) :
    jlookup (jinsert fields k v) k = some v := by
  rw [jinsert, jlookup_append, jlookup_jerase_self]
  simp [jlookup]

theorem jlookup_jinsert_ne (fields : JObj) {k k' : Str} (v : JValue) (h : k' ≠ k) :
    jlookup (jinsert fields k v) k' = jlookup fields k' := by
  rw [jinsert, jlookup_append, jlookup_jerase_ne fields h]
  cases hl : jlookup fields k' with
  | some w => rfl
  | none =>
    have hne : ¬ (k = k') := fun hc => h hc.symm
    simp [jlookup, hne]

/-! ### Schema-normalization import payload -/

/-- The payload construction of `importDashboardToGrafana` (main.go:291-299):
delete `id` and `uid` from the parsed document, then wrap it as
`{"dashboard": d, "overwrite": true}`. -/
def buildImportPayload (dashboard : JObj) : JObj :=
  let d := jerase (jerase dashboard (lit "id")) (lit "uid")
  [(lit "dashboard", JValue.obj d), (lit "overwrite", JValue.bool true)]

/-- Claim C3: the document submitted to the import call is the parsed input
with `id` and `uid` removed and every other top-level field unchanged,
wrapped in a payload whose `overwrite` field is true; the old `id`/`uid`
values are never propagated. -/
theorem import_payload_strips_identity (dashboard : JObj) :
    jlookup (buildImportPayload dashboard) (lit "overwrite") = some (JValue.bool true) ∧
    ∃ d, jlookup (buildImportPayload dashboard) (lit "dashboard") = some (JValue.obj d) ∧
      jlookup d (lit "id") = none ∧ jlookup d (lit "uid") = none ∧
      ∀ k : Str, k ≠ lit "id" → k ≠ lit "uid" → jlookup d k = jlookup dashboard k := by
  refine ⟨by simp [buildImportPayload, jlookup]; decide, ?_⟩
  refine ⟨jerase (jerase dashboard (lit "id")) (lit "uid"), ?_, ?_, ?_, ?_⟩
  · simp [buildImportPayload, jlookup]
  · rw [jlookup_jerase_ne _ (by decide), jlookup_jerase_self]
  · exact jlookup_jerase_self _ _
  · intro k hid huid
    rw [jlookup_jerase_ne _ huid, jlookup_jerase_ne _ hid]

/-- A concrete dashboard document used to instantiate theorems. -/
def demoDashboard : JObj :=
  [(lit "id", JValue.num 42), (lit "uid", JValue.str (lit "old-uid")),
   (lit "title", JValue.str (lit "My Dash"))]

theorem import_payload_strips_identity_witness :
    ∃ d, jlookup (buildImportPayload demoDashboard) (lit "dashboard") = some (JValue.obj d) ∧
      jlookup d (lit "id") = none ∧ jlookup d (lit "uid") = none ∧
      jlookup d (lit "title") = some (JValue.str (lit "My Dash")) := by
  obtain ⟨-, d, hd, hid, huid, hframe⟩ := import_payload_strips_identity demoDashboard
  refine ⟨d, hd, hid, huid, ?_⟩
  rw [hframe (lit "title") (by decide) (by decide)]
  rfl

/-! ### Perses dashboard model and the datasource reference normalizer

The decoded `persesv1.Dashboard` structure, restricted to the components
`removeDatasourceNames` (main.go:710-725) walks; each level carries an
opaque `rest` component standing for all the other decoded fields, which
the cleaner never touches. -/

/-- `common.Plugin`: a kind discriminator plus an untyped spec. -/
structure Plugin where
  kind : Str
  spec : JValue

/-- A panel query (`query.Spec` with its plugin); `rest` holds the other
query-spec fields. -/
structure Query where
  plugin : Plugin
  rest : JValue

/-- A panel (`panel.Spec` with its queries); `rest` holds the other
panel fields. -/
structure Panel where
  queries : List Query
  rest : JValue

/-- A decoded Perses dashboard: named panels plus all other content. -/
structure PersesDashboard where
  panels : List (Str × Panel)
  rest : JValue

/-- The nested step of `cleanDatasourceInPlugin` (main.go:742-745): if the
datasource reference has an object-valued `plugin` field, delete that
object's `spec` field. -/
def cleanNestedPluginSpec (dsRef : JObj) : JObj :=
  match jlookup dsRef (lit "plugin") with
  | some (JValue.obj pluginData) =>
    jinsert dsRef (lit "plugin") (JValue.obj (jerase pluginData (lit "spec")))
  | _ => dsRef

/-- `cleanDatasourceInPlugin` (main.go:727-748): when the
use-default-datasource flag is set and the plugin spec is an object with an
object-valued `datasource` field, delete its `default` and `name` fields and
the `spec` field of its nested `plugin` object. -/
def cleanDatasourceInPlugin (useDefaultPersesDatasource : Bool) (plugin : Plugin) : Plugin :=
  if !useDefaultPersesDatasource then plugin
  else
    match plugin.spec with
    | JValue.obj pluginSpec =>
      match jlookup pluginSpec (lit "datasource") with
      | some (JValue.obj datasourceRef) =>
        let datasourceRef := jerase datasourceRef (lit "default")
        let datasourceRef := jerase datasourceRef (lit "name")
        let datasourceRef := cleanNestedPluginSpec datasourceRef
        { plugin with
          spec := JValue.obj (jinsert pluginSpec (lit "datasource") (JValue.obj datasourceRef)) }
      | _ => plugin
    | _ => plugin

def cleanQuery (u : Bool) (q : Query) : Query :=
  { q with plugin := cleanDatasourceInPlugin u q.plugin }

def cleanPanel (u : Bool) (p : Panel) : Panel :=
  { p with queries := p.queries.map (cleanQuery u) }

/-- The dashboard traversal of `removeDatasourceNames` (main.go:716-722). -/
def cleanDashboard (u : Bool) (d : PersesDashboard) : PersesDashboard :=
  { d with panels := d.panels.map fun kv => (kv.1, cleanPanel u kv.2) }

/-- Output bytes of the external migration tool: either bytes that decode as
a Perses dashboard or bytes that fail to decode. -/
inductive PersesBytes where
  | parsed (d : PersesDashboard)
  | undecodable (raw : Str)

/-- `removeDatasourceNames` (main.go:710-725): decode, clean every panel
query's plugin, re-encode; a decode failure is an error. -/
def removeDatasourceNames (u : Bool) (b : PersesBytes) : Except Str PersesBytes :=
  match b with
  | PersesBytes.undecodable _ => Except.error (lit "unmarshal failed")
  | PersesBytes.parsed d => Except.ok (PersesBytes.parsed (cleanDashboard u d))

theorem cleanNested_of_obj {dsRef pd : JObj}
    (h : jlookup dsRef (lit "plugin") = some (JValue.obj pd)) :
    cleanNestedPluginSpec dsRef =
      jinsert dsRef (lit "plugin") (JValue.obj (jerase pd (lit "spec"))) := by
  unfold cleanNestedPluginSpec
  rw [h]

theorem cleanNested_of_not_obj {dsRef : JObj}
    (h : ∀ pd : JObj, jlookup dsRef (lit "plugin") ≠ some (JValue.obj pd)) :
    cleanNestedPluginSpec dsRef = dsRef := by
  unfold cleanNestedPluginSpec
  cases hl : jlookup dsRef (lit "plugin") with
  | none => rfl
  | some v =>
    cases v with
    | null => rfl
    | bool b => rfl
    | num n => rfl
    | str s => rfl
    | arr xs => rfl
    | obj pd => exact absurd hl (h pd)

theorem jlookup_cleanNested_ne (dsRef : JObj) {k : Str} (h : k ≠ lit "plugin") :
    jlookup (cleanNestedPluginSpec dsRef) k = jlookup dsRef k := by
  by_cases hex : ∃ pd : JObj, jlookup dsRef (lit "plugin") = some (JValue.obj pd)
  · obtain ⟨pd, hpd⟩ := hex
    rw [cleanNested_of_obj hpd, jlookup_jinsert_ne _ _ h]
  · push_neg at hex
    rw [cleanNested_of_not_obj hex]

/-- Plugin-level exactness of the datasource cleaner: removing exactly the
`name` and `default` fields and the nested plugin's `spec` field, keeping
the kind discriminator and every other field. -/
theorem clean_datasource_spec (p : Plugin) (pluginSpec : JObj) (dsRef : JObj)
    (hspec : p.spec = JValue.obj pluginSpec)
    (hds : jlookup pluginSpec (lit "datasource") = some (JValue.obj dsRef)) :
    (cleanDatasourceInPlugin true p).kind = p.kind ∧
    ∃ pluginSpec' dsRef',
      (cleanDatasourceInPlugin true p).spec = JValue.obj pluginSpec' ∧
      (∀ k : Str, k ≠ lit "datasource" → jlookup pluginSpec' k = jlookup pluginSpec k) ∧
      jlookup pluginSpec' (lit "datasource") = some (JValue.obj dsRef') ∧
      jlookup dsRef' (lit "name") = none ∧
      jlookup dsRef' (lit "default") = none ∧
      (∀ k : Str, k ≠ lit "name" → k ≠ lit "default" → k ≠ lit "plugin" →
        jlookup dsRef' k = jlookup dsRef k) ∧
      (∀ pd : JObj, jlookup dsRef (lit "plugin") = some (JValue.obj pd) →
        ∃ pd', jlookup dsRef' (lit "plugin") = some (JValue.obj pd') ∧
          jlookup pd' (lit "spec") = none ∧
          ∀ k : Str, k ≠ lit "spec" → jlookup pd' k = jlookup pd k) := by
  have hu : cleanDatasourceInPlugin true p =
      { p with
        spec := JValue.obj (jinsert pluginSpec (lit "datasource") (JValue.obj
          (cleanNestedPluginSpec (jerase (jerase dsRef (lit "default")) (lit "name"))))) } := by
    unfold cleanDatasourceInPlugin
    rw [hspec]
    simp only [Bool.not_true, Bool.false_eq_true, if_false, hds]
  set ds1 := jerase (jerase dsRef (lit "default")) (lit "name") with hds1
  have hlp : jlookup ds1 (lit "plugin") = jlookup dsRef (lit "plugin") := by
    rw [hds1, jlookup_jerase_ne _ (by decide), jlookup_jerase_ne _ (by decide)]
  refine ⟨by rw [hu], jinsert pluginSpec (lit "datasource")
    (JValue.obj (cleanNestedPluginSpec ds1)), cleanNestedPluginSpec ds1,
    by rw [hu], ?_, jlookup_jinsert_self _ _ _, ?_, ?_, ?_, ?_⟩
  · intro k hk
    exact jlookup_jinsert_ne _ _ hk
  · rw [jlookup_cleanNested_ne _ (by decide), hds1, jlookup_jerase_self]
  · rw [jlookup_cleanNested_ne _ (by decide), hds1,
      jlookup_jerase_ne _ (by decide), jlookup_jerase_self]
  · intro k hname hdefault hplugin
    rw [jlookup_cleanNested_ne _ hplugin, hds1,
      jlookup_jerase_ne _ hname, jlookup_jerase_ne _ hdefault]
  · intro pd hpd
    refine ⟨jerase pd (lit "spec"), ?_, jlookup_jerase_self _ _, ?_⟩
    · rw [cleanNested_of_obj (by rw [hlp, hpd]), jlookup_jinsert_self]
    · intro k hk
      exact jlookup_jerase_ne _ hk

theorem forall₂_map_self {α β : Type} (f : α → β) (R : α → β → Prop) (l : List α)
    (h : ∀ a ∈ l, R a (f a)) : List.Forall₂ R l (l.map f) := by
  induction l with
  | nil => exact List.Forall₂.nil
  | cons a rest ih =>
    exact List.Forall₂.cons (h a (List.mem_cons_self a rest))
      (ih fun b hb => h b (List.mem_cons_of_mem a hb))

/-- Claim C5: with the strip-datasource flag on, the normalizer removes from
each panel query's plugin-spec datasource reference exactly the `name` and
`default` fields and the nested plugin `spec` field, retains the kind/type
discriminator, and leaves every other part of the payload unchanged; in
particular `{kind, name, default}` becomes `{kind}` only. -/
theorem datasource_strip_exact :
    (∀ d : PersesDashboard,
      removeDatasourceNames true (PersesBytes.parsed d) =
        Except.ok (PersesBytes.parsed (cleanDashboard true d)) ∧
      (cleanDashboard true d).rest = d.rest ∧
      List.Forall₂ (fun (a b : Str × Panel) => a.1 = b.1 ∧ a.2.rest = b.2.rest ∧
          List.Forall₂ (fun (q q' : Query) => q.rest = q'.rest ∧
            q'.plugin = cleanDatasourceInPlugin true q.plugin) a.2.queries b.2.queries)
        d.panels (cleanDashboard true d).panels) ∧
    (∀ (p : Plugin) (pluginSpec dsRef : JObj),
      p.spec = JValue.obj pluginSpec →
      jlookup pluginSpec (lit "datasource") = some (JValue.obj dsRef) →
      (cleanDatasourceInPlugin true p).kind = p.kind ∧
      ∃ pluginSpec' dsRef',
        (cleanDatasourceInPlugin true p).spec = JValue.obj pluginSpec' ∧
        (∀ k : Str, k ≠ lit "datasource" → jlookup pluginSpec' k = jlookup pluginSpec k) ∧
        jlookup pluginSpec' (lit "datasource") = some (JValue.obj dsRef') ∧
        jlookup dsRef' (lit "name") = none ∧
        jlookup dsRef' (lit "default") = none ∧
        (∀ k : Str, k ≠ lit "name" → k ≠ lit "default" → k ≠ lit "plugin" →
          jlookup dsRef' k = jlookup dsRef k) ∧
        (∀ pd : JObj, jlookup dsRef (lit "plugin") = some (JValue.obj pd) →
          ∃ pd', jlookup dsRef' (lit "plugin") = some (JValue.obj pd') ∧
            jlookup pd' (lit "spec") = none ∧
            ∀ k : Str, k ≠ lit "spec" → jlookup pd' k = jlookup pd k)) ∧
    cleanDatasourceInPlugin true
      ⟨lit "PrometheusTimeSeriesQuery",
        JValue.obj [(lit "datasource", JValue.obj
          [(lit "kind", JValue.str (lit "prometheus")),
           (lit "name", JValue.str (lit "prod-instance")),
           (lit "default", JValue.bool true)])]⟩ =
      ⟨lit "PrometheusTimeSeriesQuery",
        JValue.obj [(lit "datasource", JValue.obj
          [(lit "kind", JValue.str (lit "prometheus"))])]⟩ := by
  refine ⟨?_, fun p ps ds hs hd => clean_datasource_spec p ps ds hs hd, by rfl⟩
  intro d
  refine ⟨rfl, rfl, ?_⟩
  refine forall₂_map_self _ _ _ ?_
  intro a _
  refine ⟨rfl, rfl, ?_⟩
  exact forall₂_map_self _ _ _ fun q _ => ⟨rfl, rfl⟩

/-- A one-panel, one-query dashboard whose query carries the scenario
datasource reference. -/
def demoPersesDashboard : PersesDashboard :=
  PersesDashboard.mk
    [(lit "panel-0", Panel.mk
      [Query.mk
        (Plugin.mk (lit "PrometheusTimeSeriesQuery")
          (JValue.obj [(lit "datasource", JValue.obj
            [(lit "kind", JValue.str (lit "prometheus")),
             (lit "name", JValue.str (lit "prod-instance")),
             (lit "default", JValue.bool true)])]))
        JValue.null]
      JValue.null)]
    JValue.null

theorem datasource_strip_exact_witness :
    removeDatasourceNames true (PersesBytes.parsed demoPersesDashboard) =
      Except.ok (PersesBytes.parsed (cleanDashboard true demoPersesDashboard)) ∧
    (∃ pluginSpec' dsRef',
      (cleanDatasourceInPlugin true
        ⟨lit "q", JValue.obj [(lit "datasource", JValue.obj
          [(lit "kind", JValue.str (lit "prometheus")),
           (lit "name", JValue.str (lit "prod-instance"))])]⟩).spec =
        JValue.obj pluginSpec' ∧
      jlookup pluginSpec' (lit "datasource") = some (JValue.obj dsRef') ∧
      jlookup dsRef' (lit "name") = none ∧
      jlookup dsRef' (lit "kind") = some (JValue.str (lit "prometheus"))) := by
  obtain ⟨hdash, hplug, -⟩ := datasource_strip_exact
  refine ⟨(hdash demoPersesDashboard).1, ?_⟩
  obtain ⟨-, ps', ds', hs, -, hds, hname, -, hframe, -⟩ :=
    hplug ⟨lit "q", JValue.obj [(lit "datasource", JValue.obj
      [(lit "kind", JValue.str (lit "prometheus")),
       (lit "name", JValue.str (lit "prod-instance"))])]⟩
      [(lit "datasource", JValue.obj
        [(lit "kind", JValue.str (lit "prometheus")),
         (lit "name", JValue.str (lit "prod-instance"))])]
      [(lit "kind", JValue.str (lit "prometheus")),
       (lit "name", JValue.str (lit "prod-instance"))] rfl rfl
  refine ⟨ps', ds', hs, hds, hname, ?_⟩
  rw [hframe (lit "kind") (by decide) (by decide) (by decide)]
  rfl

/-! ### Path helpers (models of `path/filepath` on clean slash-separated
relative paths, which is what `filepath.Rel`/`filepath.Walk` produce) -/

/-- Model of `filepath.Base`: the part after the last slash. -/
def baseName (p : Str) : Str := (p.reverse.takeWhile (fun c => c != '/')).reverse

/-- Model of `filepath.Dir`: the part before the last slash, `"."` when
there is none. -/
def dirPath (p : Str) : Str :=
  let r := p.reverse.dropWhile (fun c => c != '/')
  if r = [] then lit "." else (r.drop 1).reverse

/-- Model of `filepath.Join` on clean nonempty components. -/
def pathJoin (a b : Str) : Str := a ++ lit "/" ++ b

example : baseName (lit "sub/dir/a.json") = lit "a.json" := by decide
example : dirPath (lit "sub/dir/a.json") = lit "sub/dir" := by decide
example : dirPath (lit "a.json") = lit "." := by decide

/-! ### Artifact exporter -/

/-- Oracle for the effectful operations of the export stage: the HTTP fetch
result (the decoded envelope; `none` models any transport, status or decode
failure), `os.MkdirAll` success per directory, `os.WriteFile` success per
path, and the run timestamp `time.Now().Format("20060102-1504")`. -/
structure ExportEnv where
  fetch : Str → Option JObj
  mkdirOk : Str → Bool
  writeOk : Str → Bool
  timestamp : Str

/-- The filename computation of `exportSingleUpdatedDashboard`
(main.go:405-420): slug from the title when it is a nonempty string
(otherwise the raw uid), then `slug-timestamp.json`, validated against the
pattern with a sanitized-uid fallback. -/
def exportFilename (spec : JObj) (uid ts : Str) : Str :=
  let slug := match jlookup spec (lit "title") with
    | some (JValue.str t) => if t ≠ [] then sanitizeFilenameForRegex t else uid
    | _ => uid
  let filename := slug ++ lit "-" ++ ts ++ lit ".json"
  if validateFilenameRegex filename then filename
  else sanitizeFilenameForRegex uid ++ lit "-" ++ ts ++ lit ".json"

/-- The target directory of a single export (main.go:395-403): the output
root, extended by the file's relative directory when there is one. -/
def exportTargetDir (outputDir relativePath : Str) : Str :=
  if dirPath relativePath = lit "." then outputDir
  else pathJoin outputDir (dirPath relativePath)

/-- The full output path of a single export (main.go:422): target directory
joined with the computed filename (the fetched spec gets the uid
re-injected before the title is read, main.go:393). -/
def exportOutputPath (env : ExportEnv) (outputDir relativePath uid : Str) (spec0 : JObj) : Str :=
  pathJoin (exportTargetDir outputDir relativePath)
    (exportFilename (jinsert spec0 (lit "uid") (JValue.str uid)) uid env.timestamp)

/-- `exportSingleUpdatedDashboard` (main.go:367-441): fetch the dashboard,
extract the `spec` object, re-inject the uid, create the mirrored
subdirectory, compute the filename and write. Returns the written path. -/
def exportSingleUpdatedDashboard (env : ExportEnv) (uid relativePath outputDir : Str) :
    Except Str Str :=
  match env.fetch uid with
  | none => Except.error (lit "failed to get dashboard")
  | some dashboardResponse =>
    match jlookup dashboardResponse (lit "spec") with
    | some (JValue.obj spec0) =>
      if (dirPath relativePath != lit ".") &&
          !env.mkdirOk (exportTargetDir outputDir relativePath) then
        Except.error (lit "failed to create subdirectory")
      else if env.writeOk (exportOutputPath env outputDir relativePath uid spec0) then
        Except.ok (exportOutputPath env outputDir relativePath uid spec0)
      else Except.error (lit "failed to write dashboard file")
    | _ => Except.error (lit "no spec found in dashboard response")

/-- Shape of `time.Now().Format("20060102-1504")` output: nonempty, digits
and hyphens only, ending in a digit. -/
def TimestampOk (ts : Str) : Prop :=
  ts ≠ [] ∧ (∀ c ∈ ts, (isDigitCh c || (c = '-')) = true) ∧
  isDigitCh (ts.getLastD '-') = true

theorem digit_isLowerAlnum {c : Char} (h : isDigitCh c = true) : isLowerAlnum c = true := by
  simp only [isDigitCh, Bool.and_eq_true] at h
  simp [isLowerAlnum, h]

theorem digit_isSlugChar {c : Char} (h : (isDigitCh c || (c = '-')) = true) :
    isSlugChar c = true := by
  simp only [Bool.or_eq_true] at h
  rcases h with h | h
  · simp [isSlugChar, digit_isLowerAlnum h]
  · simp [isSlugChar, h]

theorem trimSuffixJson_append (x : Str) : trimSuffixJson (x ++ lit ".json") = x := by
  rw [trimSuffixJson, if_pos]
  · rw [List.length_append]
    have h5 : (lit ".json").length = 5 := by decide
    rw [h5]
    have : x.length + 5 - 5 = x.length := by omega
    rw [this, List.take_left]
  · rw [List.isSuffixOf_iff_suffix]
    exact List.suffix_append x (lit ".json")

theorem matches_append_hyphen {s mid : Str} (hgood : GoodSlug s)
    (hmid : ∀ c ∈ mid, isSlugChar c = true)
    (hlast : isLowerAlnum (mid.getLastD '-') = true)
    (hne : mid ≠ []) :
    matchesFilenamePattern (s ++ lit "-" ++ mid) = true := by
  obtain ⟨hsne, hmem, hh, _, _⟩ := hgood
  cases hs : s with
  | nil => exact absurd hs hsne
  | cons c s' =>
    subst hs
    have hchar : isLowerAlnum c = true := by
      have hcslug := hmem c (List.mem_cons_self c s')
      have : c ≠ '-' := fun hc => hh (by rw [hc]; rfl)
      simp only [isSlugChar, Bool.or_eq_true, decide_eq_true_eq] at hcslug
      tauto
    have hx : (c :: s') ++ lit "-" ++ mid = c :: (s' ++ '-' :: mid) := by
      simp [lit]
    rw [hx, matchesFilenamePattern]
    refine (Bool.and_eq_true _ _).mpr ⟨(Bool.and_eq_true _ _).mpr ⟨hchar, ?_⟩, ?_⟩
    · refine List.all_eq_true.mpr fun d hd => ?_
      rcases List.mem_append.mp hd with hd | hd
      · exact hmem d (List.mem_cons_of_mem c hd)
      · rcases List.mem_cons.mp hd with hd | hd
        · simp [isSlugChar, hd]
        · exact hmid d hd
    · have hmidcons : ('-' :: mid : Str) ≠ [] := by simp
      have h1 : (s' ++ '-' :: mid).getLast? = ('-' :: mid).getLast? :=
        List.getLast?_append_of_ne_nil s' hmidcons
      have h2 : ('-' :: mid).getLast? = mid.getLast? := by
        have := List.getLast?_append_of_ne_nil ['-'] hne
        simpa using this
      rw [List.getLastD_eq_getLast?, h1, h2, ← List.getLastD_eq_getLast?]
      obtain ⟨d, hd⟩ : ∃ d, mid.getLast? = some d := by
        cases h : mid.getLast? with
        | none => rw [List.getLast?_eq_none_iff] at h; exact absurd h hne
        | some d => exact ⟨d, rfl⟩
      rw [List.getLastD_eq_getLast?, hd]
      rw [List.getLastD_eq_getLast?, hd] at hlast
      exact hlast

theorem validate_exportFilename (spec : JObj) (uid ts : Str) (hts : TimestampOk ts) :
    validateFilenameRegex (exportFilename spec uid ts) = true := by
  rw [exportFilename]
  set slug := (match jlookup spec (lit "title") with
    | some (JValue.str t) => if t ≠ [] then sanitizeFilenameForRegex t else uid
    | _ => uid) with hslug
  by_cases hv : validateFilenameRegex (slug ++ lit "-" ++ ts ++ lit ".json") = true
  · rw [if_pos hv]; exact hv
  · rw [if_neg hv]
    obtain ⟨hne, hmid, hlast⟩ := hts
    have hassoc : sanitizeFilenameForRegex uid ++ lit "-" ++ ts ++ lit ".json" =
        (sanitizeFilenameForRegex uid ++ lit "-" ++ ts) ++ lit ".json" := by
      simp [List.append_assoc]
    rw [hassoc, validateFilenameRegex, trimSuffixJson_append]
    exact matches_append_hyphen (goodSlug_sanitize uid)
      (fun c hc => digit_isSlugChar (hmid c hc)) (digit_isLowerAlnum hlast) hne

theorem matches_chars {l : Str} (h : matchesFilenamePattern l = true) :
    ∀ c ∈ l, isSlugChar c = true := by
  cases l with
  | nil => simp [matchesFilenamePattern] at h
  | cons c cs =>
    rw [matchesFilenamePattern] at h
    simp only [Bool.and_eq_true] at h
    intro d hd
    rcases List.mem_cons.mp hd with rfl | hd
    · simp [isSlugChar, h.1.1]
    · exact List.all_eq_true.mp h.1.2 d hd

theorem slug_ne_slash {c : Char} (h : isSlugChar c = true) : c ≠ '/' := by
  rintro rfl
  revert h
  decide

theorem takeWhile_append_stop {p : Char → Bool} {a : Str} (b : Str)
    (ha : ∀ c ∈ a, p c = true) {d : Char} (hd : p d = false) :
    (a ++ d :: b).takeWhile p = a := by
  induction a with
  | nil => simp [List.takeWhile_cons, hd]
  | cons c cs ih =>
    have hc := ha c (List.mem_cons_self c cs)
    simp only [List.cons_append, List.takeWhile_cons, hc, if_true]
    rw [ih fun e he => ha e (List.mem_cons_of_mem c he)]

theorem baseName_join {t f : Str} (hf : ∀ c ∈ f, c ≠ '/') :
    baseName (pathJoin t f) = f := by
  rw [baseName, pathJoin]
  have hrev : (t ++ lit "/" ++ f).reverse = f.reverse ++ '/' :: t.reverse := by
    simp [lit]
  rw [hrev, takeWhile_append_stop t.reverse ?_ ?_, List.reverse_reverse]
  · intro c hc
    rw [List.mem_reverse] at hc
    simpa using hf c hc
  · decide

theorem exportFilename_no_slash (spec : JObj) (uid ts : Str)
    (hts : ∀ c ∈ ts, (isDigitCh c || (c = '-')) = true) :
    ∀ c ∈ exportFilename spec uid ts, c ≠ '/' := by
  intro c hc
  rw [exportFilename] at hc
  set slug := (match jlookup spec (lit "title") with
    | some (JValue.str t) => if t ≠ [] then sanitizeFilenameForRegex t else uid
    | _ => uid) with hslug
  have hjson : ∀ d ∈ lit ".json", d ≠ '/' := by decide
  by_cases hv : validateFilenameRegex (slug ++ lit "-" ++ ts ++ lit ".json") = true
  · rw [if_pos hv] at hc
    have hx : slug ++ lit "-" ++ ts ++ lit ".json" =
        (slug ++ lit "-" ++ ts) ++ lit ".json" := by simp [List.append_assoc]
    rw [hx] at hc hv
    rw [validateFilenameRegex, trimSuffixJson_append] at hv
    rcases List.mem_append.mp hc with hc | hc
    · exact slug_ne_slash (matches_chars hv c hc)
    · exact hjson c hc
  · rw [if_neg hv] at hc
    have hx : sanitizeFilenameForRegex uid ++ lit "-" ++ ts ++ lit ".json" =
        (sanitizeFilenameForRegex uid ++ lit "-" ++ ts) ++ lit ".json" := by
      simp [List.append_assoc]
    rw [hx] at hc
    rcases List.mem_append.mp hc with hc | hc
    · rcases List.mem_append.mp hc with hc | hc
      · rcases List.mem_append.mp hc with hc | hc
        · exact slug_ne_slash ((goodSlug_sanitize uid).2.1 c hc)
        · have : c = '-' := by simpa [lit] using hc
          subst this
          decide
      · exact slug_ne_slash (digit_isSlugChar (hts c hc))
    · exact hjson c hc

/-- Claim C4: every filename the exporter writes has a basename whose
`.json`-stripped stem matches `^[a-z0-9]([-a-z0-9]*[a-z0-9])?$`: the
title-derived candidate is validated before writing and the sanitized-uid
fallback always satisfies the pattern, so the name actually written always
validates. -/
theorem export_written_name_valid :
    (∀ (spec : JObj) (uid ts : Str), TimestampOk ts →
      validateFilenameRegex (exportFilename spec uid ts) = true) ∧
    (∀ (env : ExportEnv) (uid relativePath outputDir path : Str),
      TimestampOk env.timestamp →
      exportSingleUpdatedDashboard env uid relativePath outputDir = Except.ok path →
      validateFilenameRegex (baseName path) = true) := by
  refine ⟨validate_exportFilename, ?_⟩
  intro env uid relativePath outputDir path hts hok
  unfold exportSingleUpdatedDashboard at hok
  split at hok
  · exact Except.noConfusion hok
  next resp =>
    split at hok
    next spec0 heq =>
      split at hok
      · exact Except.noConfusion hok
      · split at hok
        · injection hok with h
          subst h
          rw [exportOutputPath,
            baseName_join (exportFilename_no_slash _ uid env.timestamp hts.2.1)]
          exact validate_exportFilename _ uid env.timestamp hts
        · exact Except.noConfusion hok
    next h₁ h₂ => exact Except.noConfusion hok

/-- Concrete export environment used to instantiate theorems. -/
def demoExportEnv : ExportEnv where
  fetch := fun _ => some [(lit "spec", JValue.obj
    [(lit "title", JValue.str (lit "My Dashboard! v2.0"))])]
  mkdirOk := fun _ => true
  writeOk := fun _ => true
  timestamp := lit "20251011-1504"

theorem export_written_name_valid_witness :
    ∃ path, exportSingleUpdatedDashboard demoExportEnv (lit "Bad_UID")
        (lit "sub/a.json") (lit "out") = Except.ok path ∧
      validateFilenameRegex (baseName path) = true := by
  obtain ⟨path, hpath⟩ : ∃ path, exportSingleUpdatedDashboard demoExportEnv (lit "Bad_UID")
      (lit "sub/a.json") (lit "out") = Except.ok path := ⟨_, rfl⟩
  exact ⟨path, hpath, export_written_name_valid.2 demoExportEnv (lit "Bad_UID")
    (lit "sub/a.json") (lit "out") path ⟨by decide, by decide, by decide⟩ hpath⟩

/-! ### Migration summary and the three pipeline stages -/

/-- `MigrationSummary` (main.go:44-52). -/
structure MigrationSummary where
  TotalDashboards : Nat
  SchemaUpdateSuccess : Nat
  SchemaUpdateFailed : List Str
  ExportSuccess : Nat
  ExportFailed : List Str
  MigrationSuccess : Nat
  MigrationFailed : List Str
deriving DecidableEq

/-- The summary created at run start (main.go:240-242). -/
def initSummary (total : Nat) : MigrationSummary :=
  ⟨total, 0, [], 0, [], 0, []⟩

/-- `DashboardInfo` (main.go:39-42). -/
structure DashboardInfo where
  UID : Str
  RelativePath : Str
deriving DecidableEq

/-- A discovered input file together with the oracle results of the
per-file effectful operations of the schema-update stage: `filepath.Rel`
(`none` models failure) and `importDashboardToGrafana` (`none` models any
of its per-file failures, `some uid` the newly assigned uid). -/
structure InputFile where
  base : Str
  relPath : Option Str
  importResult : Option Str
deriving DecidableEq

/-- The loop of `updateGrafanaSchemasToLatestVersion` (main.go:245-267),
threading the summary, the dashboards list and the trace of files for which
an import call is issued. -/
def schemaLoop : List InputFile → MigrationSummary → List DashboardInfo → List Str →
    MigrationSummary × List DashboardInfo × List Str
  | [], s, d, tr => (s, d, tr)
  | f :: fs, s, d, tr =>
    match f.relPath with
    | none => schemaLoop fs s d tr
    | some rel =>
      match f.importResult with
      | none => schemaLoop fs
          { s with SchemaUpdateFailed := s.SchemaUpdateFailed ++ [f.base] } d (tr ++ [f.base])
      | some uid => schemaLoop fs
          { s with SchemaUpdateSuccess := s.SchemaUpdateSuccess + 1 }
          (d ++ [⟨uid, rel⟩]) (tr ++ [f.base])

/-- `updateGrafanaSchemasToLatestVersion` (main.go:228-269); the second
component is the trace of files for which an import call was issued. -/
def updateGrafanaSchemasToLatestVersion (files : List InputFile) :
    Except Str (List DashboardInfo × MigrationSummary) × List Str :=
  if files.length = 0 then (Except.error (lit "no JSON files found in directory"), [])
  else
    match schemaLoop files (initSummary files.length) [] [] with
    | (s, d, tr) => (Except.ok (d, s), tr)

/-- The loop of `exportUpdatedGrafanaDashboards` (main.go:350-360),
threading the summary and the list of written paths. -/
def exportLoop (env : ExportEnv) (outputDir : Str) :
    List DashboardInfo → MigrationSummary → List Str → MigrationSummary × List Str
  | [], s, w => (s, w)
  | db :: rest, s, w =>
    match exportSingleUpdatedDashboard env db.UID db.RelativePath outputDir with
    | Except.error _ => exportLoop env outputDir rest
        { s with ExportFailed := s.ExportFailed ++ [baseName db.RelativePath] } w
    | Except.ok path => exportLoop env outputDir rest
        { s with ExportSuccess := s.ExportSuccess + 1 } (w ++ [path])

/-- `exportUpdatedGrafanaDashboards` (main.go:340-365): `MkdirAll` on the
output root first; on failure the stage returns an error without exporting
anything. -/
def exportUpdatedGrafanaDashboards (env : ExportEnv) (dashboards : List DashboardInfo)
    (outputDir : Str) (s : MigrationSummary) : Except Str (MigrationSummary × List Str) :=
  if env.mkdirOk outputDir then Except.ok (exportLoop env outputDir dashboards s [])
  else Except.error (lit "failed to create output directory")

/-- A file discovered by the migration stage's walk, with the oracle results
of its per-file effectful operations: `filepath.Rel`, `os.MkdirAll`, the
`percli migrate` invocation (`none` models a nonzero exit) and
`os.WriteFile`. -/
structure MigFile where
  base : Str
  relPath : Option Str
  mkdirOk : Bool
  migrateOutput : Option PersesBytes
  writeOk : Bool

/-- One iteration of the loop of `migrateDashboardsToPerses`
(main.go:603-657): a relative-path or mkdir failure skips the file
silently; a migrate failure or a write failure records it as failed;
otherwise the (optionally normalized, with fallback to the raw output on a
normalization error, main.go:632-645) output is written and the file is
counted as a success. -/
def migrateStep (useDefault : Bool) (persesOutputDir : Str) (f : MigFile)
    (s : MigrationSummary) (w : List (Str × PersesBytes)) :
    MigrationSummary × List (Str × PersesBytes) :=
  match f.relPath with
  | none => (s, w)
  | some rel =>
    if !f.mkdirOk then (s, w)
    else
      match f.migrateOutput with
      | none => ({ s with MigrationFailed := s.MigrationFailed ++ [f.base] }, w)
      | some output =>
        if f.writeOk then
          ({ s with MigrationSuccess := s.MigrationSuccess + 1 },
           w ++ [(pathJoin persesOutputDir rel,
             if useDefault then
               match removeDatasourceNames useDefault output with
               | Except.ok cleaned => cleaned
               | Except.error _ => output
             else output)])
        else ({ s with MigrationFailed := s.MigrationFailed ++ [f.base] }, w)

/-- The loop of `migrateDashboardsToPerses` (main.go:602-657). -/
def migrateLoop (useDefault : Bool) (persesOutputDir : Str) :
    List MigFile → MigrationSummary → List (Str × PersesBytes) →
    MigrationSummary × List (Str × PersesBytes)
  | [], s, w => (s, w)
  | f :: fs, s, w =>
    migrateLoop useDefault persesOutputDir fs
      (migrateStep useDefault persesOutputDir f s w).1
      (migrateStep useDefault persesOutputDir f s w).2

/-- `migrateDashboardsToPerses` (main.go:559-661): output-directory creation
and an empty file list are stage-level errors (which the caller treats as a
warning, leaving the summary untouched). -/
def migrateDashboardsToPerses (useDefault : Bool) (files : List MigFile)
    (persesOutputDir : Str) (mkdirPersesOk : Bool) (s : MigrationSummary) :
    Except Str (MigrationSummary × List (Str × PersesBytes)) :=
  if !mkdirPersesOk then Except.error (lit "failed to create perses output directory")
  else if files.length = 0 then
    Except.error (lit "no JSON files found in grafana output directory")
  else Except.ok (migrateLoop useDefault persesOutputDir files s [])

/-- Claim C8: in the migration stage with the strip-datasource flag on, when
the migration tool's output fails to decode during datasource normalization,
the bytes written are exactly the unmodified pre-normalization output, the
file is not dropped, and it is still counted as a migration success. -/
theorem migrate_parse_failure_fallback (persesOutputDir : Str) (f : MigFile)
    (s : MigrationSummary) (w : List (Str × PersesBytes)) (rel raw : Str)
    (hrel : f.relPath = some rel) (hmk : f.mkdirOk = true)
    (hout : f.migrateOutput = some (PersesBytes.undecodable raw))
    (hwrite : f.writeOk = true) :
    removeDatasourceNames true (PersesBytes.undecodable raw) =
      Except.error (lit "unmarshal failed") ∧
    migrateStep true persesOutputDir f s w =
      ({ s with MigrationSuccess := s.MigrationSuccess + 1 },
       w ++ [(pathJoin persesOutputDir rel, PersesBytes.undecodable raw)]) := by
  refine ⟨rfl, ?_⟩
  rw [migrateStep, hrel, hmk, hout]
  simp [hwrite, removeDatasourceNames]

theorem migrate_parse_failure_fallback_witness :
    migrateStep true (lit "out/perses")
        ⟨lit "a.json", some (lit "a.json"), true, some (PersesBytes.undecodable (lit "not json")), true⟩
        (initSummary 1) [] =
      ({ initSummary 1 with MigrationSuccess := 1 },
       [(pathJoin (lit "out/perses") (lit "a.json"), PersesBytes.undecodable (lit "not json"))]) := by
  have h := migrate_parse_failure_fallback (lit "out/perses")
    ⟨lit "a.json", some (lit "a.json"), true, some (PersesBytes.undecodable (lit "not json")), true⟩
    (initSummary 1) [] (lit "a.json") (lit "not json") rfl rfl rfl rfl
  simpa using h.2

/-! ### Closed forms of the stage loops -/

/-- A file that passes the schema-update stage. -/
def schemaOkP (f : InputFile) : Bool := f.relPath.isSome && f.importResult.isSome

/-- The failed-list entry a file contributes in the schema-update stage. -/
def schemaFailF (f : InputFile) : Option Str :=
  if f.relPath.isSome && f.importResult.isNone then some f.base else none

/-- The dashboard record a file contributes in the schema-update stage. -/
def schemaDashF (f : InputFile) : Option DashboardInfo :=
  match f.relPath, f.importResult with
  | some rel, some uid => some ⟨uid, rel⟩
  | _, _ => none

/-- Whether the schema-update stage issues an import call for a file. -/
def schemaTraceF (f : InputFile) : Option Str :=
  if f.relPath.isSome then some f.base else none

theorem schemaLoop_spec (fs : List InputFile) (s : MigrationSummary)
    (d : List DashboardInfo) (tr : List Str) :
    schemaLoop fs s d tr =
      ({ s with
          SchemaUpdateSuccess := s.SchemaUpdateSuccess + fs.countP schemaOkP,
          SchemaUpdateFailed := s.SchemaUpdateFailed ++ fs.filterMap schemaFailF },
       d ++ fs.filterMap schemaDashF, tr ++ fs.filterMap schemaTraceF) := by
  induction fs generalizing s d tr with
  | nil => simp [schemaLoop]
  | cons f fs ih =>
    cases hrel : f.relPath with
    | none =>
      simp only [schemaLoop, hrel]
      rw [ih]
      simp [List.countP_cons, List.filterMap_cons, schemaOkP, schemaFailF, schemaDashF,
        schemaTraceF, hrel]
    | some rel =>
      cases himp : f.importResult with
      | none =>
        simp only [schemaLoop, hrel, himp]
        rw [ih]
        simp [List.countP_cons, List.filterMap_cons, schemaOkP, schemaFailF, schemaDashF,
          schemaTraceF, hrel, himp]
      | some uid =>
        simp only [schemaLoop, hrel, himp]
        rw [ih]
        simp [List.countP_cons, List.filterMap_cons, schemaOkP, schemaFailF, schemaDashF,
          schemaTraceF, hrel, himp, Nat.add_comm, Nat.add_assoc, Nat.add_left_comm]

theorem schemaDash_length (fs : List InputFile) :
    (fs.filterMap schemaDashF).length = fs.countP schemaOkP := by
  induction fs with
  | nil => rfl
  | cons f fs ih =>
    cases hrel : f.relPath with
    | none =>
      simp [schemaDashF, schemaOkP, hrel, List.countP_cons, List.filterMap_cons, ih]
    | some rel =>
      cases himp : f.importResult with
      | none =>
        simp [schemaDashF, schemaOkP, hrel, himp, List.countP_cons, List.filterMap_cons, ih]
      | some uid =>
        simp [schemaDashF, schemaOkP, hrel, himp, List.countP_cons, List.filterMap_cons, ih]

theorem schema_partition (fs : List InputFile) :
    fs.countP schemaOkP + (fs.filterMap schemaFailF).length +
      fs.countP (fun f => f.relPath.isNone) = fs.length := by
  induction fs with
  | nil => rfl
  | cons f fs ih =>
    cases hrel : f.relPath with
    | none =>
      simp [List.countP_cons, List.filterMap_cons, schemaOkP, schemaFailF, hrel]
      omega
    | some rel =>
      cases himp : f.importResult with
      | none =>
        simp [List.countP_cons, List.filterMap_cons, schemaOkP, schemaFailF, hrel, himp]
        omega
      | some uid =>
        simp [List.countP_cons, List.filterMap_cons, schemaOkP, schemaFailF, hrel, himp]
        omega

/-- Claim C10: in the schema-normalization stage, a file whose relative path
cannot be computed is skipped: it stays in the total but is recorded neither
as a success nor as a failure, and never reaches the dashboards list handed
to later stages; hence success + failure can be strictly below the total. -/
theorem schema_relpath_skip (files : List InputFile) (hne : files ≠ []) :
    (∃ d s, (updateGrafanaSchemasToLatestVersion files).1 = Except.ok (d, s) ∧
      s.TotalDashboards = files.length ∧
      s.SchemaUpdateSuccess + s.SchemaUpdateFailed.length +
        files.countP (fun f => f.relPath.isNone) = files.length ∧
      s.SchemaUpdateFailed = files.filterMap schemaFailF ∧
      d = files.filterMap schemaDashF ∧
      (∀ f ∈ files, f.relPath = none → schemaFailF f = none ∧ schemaDashF f = none)) ∧
    (∃ d₀ s₀, (updateGrafanaSchemasToLatestVersion
        [InputFile.mk (lit "a.json") none none]).1 = Except.ok (d₀, s₀) ∧
      s₀.SchemaUpdateSuccess + s₀.SchemaUpdateFailed.length < s₀.TotalDashboards) := by
  constructor
  · have hlen : ¬ files.length = 0 := fun h => hne (List.length_eq_zero.mp h)
    rw [updateGrafanaSchemasToLatestVersion, if_neg hlen, schemaLoop_spec]
    refine ⟨_, _, rfl, rfl, ?_, by simp [initSummary], by simp, ?_⟩
    · simp only [initSummary, Nat.zero_add, List.nil_append, List.length_append]
      exact schema_partition files
    · intro f _ hrel
      simp [schemaFailF, schemaDashF, hrel]
  · exact ⟨_, _, rfl, by decide⟩

theorem schema_relpath_skip_witness :
    ∃ d s, (updateGrafanaSchemasToLatestVersion
        [InputFile.mk (lit "a.json") none none,
         InputFile.mk (lit "b.json") (some (lit "b.json")) (some (lit "uid-b"))]).1 =
      Except.ok (d, s) ∧
      s.TotalDashboards = 2 ∧
      s.SchemaUpdateSuccess + s.SchemaUpdateFailed.length + 1 = 2 := by
  obtain ⟨⟨d, s, hok, htot, hcnt, -, -, -⟩, -⟩ := schema_relpath_skip
    [InputFile.mk (lit "a.json") none none,
     InputFile.mk (lit "b.json") (some (lit "b.json")) (some (lit "uid-b"))] (by decide)
  refine ⟨d, s, hok, htot, ?_⟩
  simpa using hcnt

/-- Whether a dashboard's export succeeds. -/
def exportOkP (env : ExportEnv) (outputDir : Str) (db : DashboardInfo) : Bool :=
  match exportSingleUpdatedDashboard env db.UID db.RelativePath outputDir with
  | Except.ok _ => true
  | Except.error _ => false

/-- The failed-list entry a dashboard contributes in the export stage. -/
def exportFailF (env : ExportEnv) (outputDir : Str) (db : DashboardInfo) : Option Str :=
  match exportSingleUpdatedDashboard env db.UID db.RelativePath outputDir with
  | Except.ok _ => none
  | Except.error _ => some (baseName db.RelativePath)

/-- The path a dashboard's export writes. -/
def exportPathF (env : ExportEnv) (outputDir : Str) (db : DashboardInfo) : Option Str :=
  match exportSingleUpdatedDashboard env db.UID db.RelativePath outputDir with
  | Except.ok path => some path
  | Except.error _ => none

theorem exportLoop_spec (env : ExportEnv) (outputDir : Str) (dbs : List DashboardInfo)
    (s : MigrationSummary) (w : List Str) :
    exportLoop env outputDir dbs s w =
      ({ s with
          ExportSuccess := s.ExportSuccess + dbs.countP (exportOkP env outputDir),
          ExportFailed := s.ExportFailed ++ dbs.filterMap (exportFailF env outputDir) },
       w ++ dbs.filterMap (exportPathF env outputDir)) := by
  induction dbs generalizing s w with
  | nil => simp [exportLoop]
  | cons db rest ih =>
    cases hx : exportSingleUpdatedDashboard env db.UID db.RelativePath outputDir with
    | error e =>
      simp only [exportLoop, hx]
      rw [ih]
      simp [List.countP_cons, List.filterMap_cons, exportOkP, exportFailF, exportPathF, hx]
    | ok path =>
      simp only [exportLoop, hx]
      rw [ih]
      simp [List.countP_cons, List.filterMap_cons, exportOkP, exportFailF, exportPathF, hx,
        Nat.add_comm, Nat.add_assoc, Nat.add_left_comm]

theorem exportPath_length (env : ExportEnv) (outputDir : Str) (dbs : List DashboardInfo) :
    (dbs.filterMap (exportPathF env outputDir)).length =
      dbs.countP (exportOkP env outputDir) := by
  induction dbs with
  | nil => rfl
  | cons db rest ih =>
    cases hx : exportSingleUpdatedDashboard env db.UID db.RelativePath outputDir with
    | error e =>
      simp [List.countP_cons, List.filterMap_cons, exportOkP, exportPathF, hx, ih]
    | ok path =>
      simp [List.countP_cons, List.filterMap_cons, exportOkP, exportPathF, hx, ih]

theorem exportFail_length (env : ExportEnv) (outputDir : Str) (dbs : List DashboardInfo) :
    dbs.countP (exportOkP env outputDir) +
      (dbs.filterMap (exportFailF env outputDir)).length = dbs.length := by
  induction dbs with
  | nil => rfl
  | cons db rest ih =>
    cases hx : exportSingleUpdatedDashboard env db.UID db.RelativePath outputDir with
    | error e =>
      simp [List.countP_cons, List.filterMap_cons, exportOkP, exportFailF, hx]
      omega
    | ok path =>
      simp [List.countP_cons, List.filterMap_cons, exportOkP, exportFailF, hx]
      omega

theorem migrateStep_bound (u : Bool) (dir : Str) (f : MigFile) (s : MigrationSummary)
    (w : List (Str × PersesBytes)) :
    (migrateStep u dir f s w).1.TotalDashboards = s.TotalDashboards ∧
    (migrateStep u dir f s w).1.SchemaUpdateSuccess = s.SchemaUpdateSuccess ∧
    (migrateStep u dir f s w).1.SchemaUpdateFailed = s.SchemaUpdateFailed ∧
    (migrateStep u dir f s w).1.ExportSuccess = s.ExportSuccess ∧
    (migrateStep u dir f s w).1.ExportFailed = s.ExportFailed ∧
    (migrateStep u dir f s w).1.MigrationSuccess +
        (migrateStep u dir f s w).1.MigrationFailed.length ≤
      s.MigrationSuccess + s.MigrationFailed.length + 1 := by
  rw [migrateStep]
  cases f.relPath with
  | none => simp
  | some rel =>
    cases hmk : f.mkdirOk with
    | false => simp
    | true =>
      cases hout : f.migrateOutput with
      | none => simp; omega
      | some output =>
        cases hw : f.writeOk with
        | false => simp; omega
        | true => simp; omega

theorem migrateLoop_bound (u : Bool) (dir : Str) (fs : List MigFile)
    (s : MigrationSummary) (w : List (Str × PersesBytes)) :
    (migrateLoop u dir fs s w).1.TotalDashboards = s.TotalDashboards ∧
    (migrateLoop u dir fs s w).1.SchemaUpdateSuccess = s.SchemaUpdateSuccess ∧
    (migrateLoop u dir fs s w).1.SchemaUpdateFailed = s.SchemaUpdateFailed ∧
    (migrateLoop u dir fs s w).1.ExportSuccess = s.ExportSuccess ∧
    (migrateLoop u dir fs s w).1.ExportFailed = s.ExportFailed ∧
    (migrateLoop u dir fs s w).1.MigrationSuccess +
        (migrateLoop u dir fs s w).1.MigrationFailed.length ≤
      s.MigrationSuccess + s.MigrationFailed.length + fs.length := by
  induction fs generalizing s w with
  | nil => simp [migrateLoop]
  | cons f fs ih =>
    rw [migrateLoop]
    obtain ⟨h1, h2, h3, h4, h5, h6⟩ := migrateStep_bound u dir f s w
    obtain ⟨g1, g2, g3, g4, g5, g6⟩ :=
      ih (migrateStep u dir f s w).1 (migrateStep u dir f s w).2
    refine ⟨g1.trans h1, g2.trans h2, g3.trans h3, g4.trans h4, g5.trans h5, ?_⟩
    rw [List.length_cons]
    omega

/-! ### The whole run -/

/-- Per-path oracle for the migration stage's effectful operations. -/
structure MigOracle where
  relPath : Option Str
  mkdirOk : Bool
  migrateOutput : Option PersesBytes
  writeOk : Bool

/-- A path found by the migration stage's walk, equipped with its oracle. -/
def toMigFile (mig : Str → MigOracle) (p : Str) : MigFile :=
  ⟨baseName p, (mig p).relPath, (mig p).mkdirOk, (mig p).migrateOutput, (mig p).writeOk⟩

/-- The observable outcome of a completed run: the final summary, the paths
the export stage wrote, and the files the migration stage wrote. -/
structure PipelineResult where
  summary : MigrationSummary
  exported : List Str
  persesWrites : List (Str × PersesBytes)

/-- The migration stage as invoked by `main` (main.go:116-120): its file
list is re-derived from the on-disk export output tree — the distinct paths
written by this run (`written.dedup`, since rewrites of the same path leave
one file) plus whatever `.json` files were already there (`stalePaths`). A
stage-level error is only a warning, leaving the summary unchanged. -/
def finishMigrate (useDefault : Bool) (mig : Str → MigOracle) (outputRoot : Str)
    (mkdirPersesOk : Bool) (stalePaths : List Str) (s : MigrationSummary)
    (written : List Str) : PipelineResult :=
  match migrateDashboardsToPerses useDefault
      ((written.dedup ++ stalePaths).map (toMigFile mig))
      (pathJoin outputRoot (lit "perses")) mkdirPersesOk s with
  | Except.error _ => ⟨s, written, []⟩
  | Except.ok (s3, pw) => ⟨s3, written, pw⟩

/-- The run after the export stage: `downloadPercli`/`loginPercli` failures
are run-fatal (main.go:108-114, no summary is displayed), then the
migration stage runs. -/
def pipelineTail (useDefault : Bool) (mig : Str → MigOracle) (outputRoot : Str)
    (percliOk mkdirPersesOk : Bool) (stalePaths : List Str) (s : MigrationSummary)
    (written : List Str) : Except Str PipelineResult :=
  if !percliOk then Except.error (lit "failed to set up percli")
  else Except.ok (finishMigrate useDefault mig outputRoot mkdirPersesOk stalePaths s written)

/-- The run of `main` (main.go:95-127) after container startup: the
schema-update stage (fatal on error), the export stage (a stage error is
only a warning and writes nothing), percli setup, and the migration stage
over the on-disk export output tree. -/
def runPipeline (files : List InputFile) (eenv : ExportEnv) (mig : Str → MigOracle)
    (useDefault : Bool) (outputRoot : Str) (percliOk mkdirPersesOk : Bool)
    (stalePaths : List Str) : Except Str PipelineResult :=
  match (updateGrafanaSchemasToLatestVersion files).1 with
  | Except.error e => Except.error e
  | Except.ok (dashboards, summary) =>
    match exportUpdatedGrafanaDashboards eenv dashboards
        (pathJoin outputRoot (lit "grafana-schema-latest")) summary with
    | Except.error _ =>
      pipelineTail useDefault mig outputRoot percliOk mkdirPersesOk stalePaths summary []
    | Except.ok (summary2, written) =>
      pipelineTail useDefault mig outputRoot percliOk mkdirPersesOk stalePaths summary2 written

theorem update_ok_char (files : List InputFile) (d : List DashboardInfo)
    (s : MigrationSummary)
    (h : (updateGrafanaSchemasToLatestVersion files).1 = Except.ok (d, s)) :
    d = files.filterMap schemaDashF ∧
    s = { TotalDashboards := files.length,
          SchemaUpdateSuccess := files.countP schemaOkP,
          SchemaUpdateFailed := files.filterMap schemaFailF,
          ExportSuccess := 0, ExportFailed := [],
          MigrationSuccess := 0, MigrationFailed := [] } := by
  rw [updateGrafanaSchemasToLatestVersion] at h
  split at h
  · simp at h
  · rw [schemaLoop_spec] at h
    simp only [initSummary, Nat.zero_add, List.nil_append] at h
    injection h with h2
    injection h2 with hd hs
    exact ⟨hd.symm, hs.symm⟩

/-- Claim C1 (amended): in every run that reaches the final summary —
whatever `.json` files already sit in the export output tree
(`stalePaths`) — the schema-update and export stages satisfy
success + failed ≤ total; the format-migration stage, whose file list is
re-derived from that on-disk tree, satisfies the bound whenever the tree
contains no files other than those written by this run's export stage. -/
theorem summary_counts_bounded (files : List InputFile) (eenv : ExportEnv)
    (mig : Str → MigOracle) (useDefault : Bool) (outputRoot : Str)
    (percliOk mkdirPersesOk : Bool) (stalePaths : List Str) (r : PipelineResult)
    (hrun : runPipeline files eenv mig useDefault outputRoot percliOk mkdirPersesOk
      stalePaths = Except.ok r) :
    r.summary.SchemaUpdateSuccess + r.summary.SchemaUpdateFailed.length
        ≤ r.summary.TotalDashboards ∧
    r.summary.ExportSuccess + r.summary.ExportFailed.length
        ≤ r.summary.TotalDashboards ∧
    (stalePaths = [] →
      r.summary.MigrationSuccess + r.summary.MigrationFailed.length
        ≤ r.summary.TotalDashboards) := by
  have hschema := schema_partition files
  have hdashlen := schemaDash_length files
  rw [runPipeline] at hrun
  split at hrun
  · exact Except.noConfusion hrun
  next dashboards summary hs1 =>
    obtain ⟨hd, hs⟩ := update_ok_char files dashboards summary hs1
    split at hrun
    next e2 hexp =>
      rw [pipelineTail] at hrun
      split at hrun
      · exact Except.noConfusion hrun
      · injection hrun with hr
        have hT : summary.TotalDashboards = files.length := by rw [hs]
        have hSS : summary.SchemaUpdateSuccess = List.countP schemaOkP files := by rw [hs]
        have hSF : summary.SchemaUpdateFailed = List.filterMap schemaFailF files := by
          rw [hs]
        have hES : summary.ExportSuccess = 0 := by rw [hs]
        have hEF : summary.ExportFailed = [] := by rw [hs]
        have hMS : summary.MigrationSuccess = 0 := by rw [hs]
        have hMF : summary.MigrationFailed = [] := by rw [hs]
        rw [finishMigrate] at hr
        cases hmig : migrateDashboardsToPerses useDefault
            ((List.dedup ([] : List Str) ++ stalePaths).map (toMigFile mig))
            (pathJoin outputRoot (lit "perses")) mkdirPersesOk summary with
        | error e3 =>
          rw [hmig] at hr
          have hr2 : (⟨summary, [], []⟩ : PipelineResult) = r := hr
          have hrs : r.summary = summary := by rw [← hr2]
          rw [hrs, hT, hSS, hSF, hES, hEF, hMS, hMF]
          exact ⟨by omega, by simp, fun _ => by simp⟩
        | ok pair3 =>
          obtain ⟨s3, pw⟩ := pair3
          rw [hmig] at hr
          have hr2 : (⟨s3, [], pw⟩ : PipelineResult) = r := hr
          have hrs : r.summary = s3 := by rw [← hr2]
          rw [migrateDashboardsToPerses] at hmig
          split at hmig
          · exact Except.noConfusion hmig
          · split at hmig
            · exact Except.noConfusion hmig
            next hlen =>
              injection hmig with hmig2
              obtain ⟨g1, g2, g3, g4, g5, g6⟩ := migrateLoop_bound useDefault
                (pathJoin outputRoot (lit "perses"))
                ((List.dedup ([] : List Str) ++ stalePaths).map (toMigFile mig)) summary []
              simp only [hmig2] at g1 g2 g3 g4 g5 g6
              rw [hrs]
              rw [hT] at g1
              rw [hSS] at g2
              rw [hSF] at g3
              rw [hES] at g4
              rw [hEF] at g5
              rw [g1, g2, g3, g4, g5]
              refine ⟨by omega, by simp, ?_⟩
              intro hstale
              subst hstale
              simp at hlen
    next summary2 written hexp =>
      rw [pipelineTail] at hrun
      rw [exportUpdatedGrafanaDashboards] at hexp
      split at hexp
      case isTrue hmkroot =>
        rw [exportLoop_spec] at hexp
        injection hexp with hexp2
        injection hexp2 with hsum hwrt
        subst hs
        subst hd
        have hT : summary2.TotalDashboards = files.length := by rw [← hsum]
        have hSS : summary2.SchemaUpdateSuccess = List.countP schemaOkP files := by
          rw [← hsum]
        have hSF : summary2.SchemaUpdateFailed = List.filterMap schemaFailF files := by
          rw [← hsum]
        have hES : summary2.ExportSuccess = List.countP
            (exportOkP eenv (pathJoin outputRoot (lit "grafana-schema-latest")))
            (List.filterMap schemaDashF files) := by
          rw [← hsum]
          simp
        have hEF : summary2.ExportFailed = List.filterMap
            (exportFailF eenv (pathJoin outputRoot (lit "grafana-schema-latest")))
            (List.filterMap schemaDashF files) := by
          rw [← hsum]
          simp
        have hMS : summary2.MigrationSuccess = 0 := by rw [← hsum]
        have hMF : summary2.MigrationFailed = [] := by rw [← hsum]
        have hwlen : written.length = List.countP
            (exportOkP eenv (pathJoin outputRoot (lit "grafana-schema-latest")))
            (List.filterMap schemaDashF files) := by
          rw [← hwrt]
          simp [exportPath_length]
        have hexpfail := exportFail_length eenv
          (pathJoin outputRoot (lit "grafana-schema-latest"))
          (List.filterMap schemaDashF files)
        have hcountle : List.countP
            (exportOkP eenv (pathJoin outputRoot (lit "grafana-schema-latest")))
            (List.filterMap schemaDashF files)
            ≤ (List.filterMap schemaDashF files).length :=
          List.countP_le_length _
        have hcountle2 : List.countP schemaOkP files ≤ files.length :=
          List.countP_le_length _
        split at hrun
        · exact Except.noConfusion hrun
        · injection hrun with hr
          rw [finishMigrate] at hr
          cases hmig : migrateDashboardsToPerses useDefault
              ((written.dedup ++ stalePaths).map (toMigFile mig))
              (pathJoin outputRoot (lit "perses")) mkdirPersesOk summary2 with
          | error e3 =>
            rw [hmig] at hr
            have hr2 : (⟨summary2, written, []⟩ : PipelineResult) = r := hr
            have hrs : r.summary = summary2 := by rw [← hr2]
            rw [hrs, hT, hSS, hSF, hES, hEF, hMS, hMF]
            exact ⟨by omega, by omega, fun _ => by simp⟩
          | ok pair3 =>
            obtain ⟨s3, pw⟩ := pair3
            rw [hmig] at hr
            rw [migrateDashboardsToPerses] at hmig
            split at hmig
            · exact Except.noConfusion hmig
            · split at hmig
              · exact Except.noConfusion hmig
              · injection hmig with hmig2
                obtain ⟨g1, g2, g3, g4, g5, g6⟩ := migrateLoop_bound useDefault
                  (pathJoin outputRoot (lit "perses"))
                  ((written.dedup ++ stalePaths).map (toMigFile mig)) summary2 []
                simp only [hmig2] at g1 g2 g3 g4 g5 g6
                have hr2 : (⟨s3, written, pw⟩ : PipelineResult) = r := hr
                have hrs : r.summary = s3 := by rw [← hr2]
                rw [hrs]
                rw [hT] at g1
                rw [hSS] at g2
                rw [hSF] at g3
                rw [hES] at g4
                rw [hEF] at g5
                rw [hMS, hMF] at g6
                rw [g1, g2, g3, g4, g5]
                refine ⟨by omega, by omega, ?_⟩
                intro hstale
                subst hstale
                have hmiglen : ((written.dedup ++ []).map (toMigFile mig)).length
                    ≤ written.length := by
                  rw [List.length_map, List.append_nil]
                  exact written.dedup_sublist.length_le
                simp only [List.length_nil] at g6
                omega
      case isFalse hmkroot => exact Except.noConfusion hexp

/-- Oracle used in concrete runs: every file yields a relative path,
directory creation succeeds, migration emits a decodable dashboard and
writes succeed. -/
def demoMigOracle : Str → MigOracle :=
  fun p => ⟨some (baseName p), true, some (PersesBytes.parsed demoPersesDashboard), true⟩

/-- Counterexample to claim C1 as stated: with two stale `.json` files left
in the export output tree (for instance by an earlier run of the tool,
whose timestamped filenames accumulate there), the format-migration stage
walks them too, and its counters exceed the run's total of one input
file. -/
theorem migration_counters_exceed_total :
    ∃ r, runPipeline [InputFile.mk (lit "a.json") (some (lit "a.json")) none]
        demoExportEnv demoMigOracle false (lit "out") true true
        [lit "s1.json", lit "s2.json"] = Except.ok r ∧
      r.summary.TotalDashboards = 1 ∧
      r.summary.MigrationSuccess = 2 ∧
      ¬ (r.summary.MigrationSuccess + r.summary.MigrationFailed.length ≤
          r.summary.TotalDashboards) := by
  refine ⟨_, rfl, ?_, ?_, ?_⟩ <;> decide

theorem summary_counts_bounded_witness :
    ∃ r, runPipeline [InputFile.mk (lit "a.json") (some (lit "a.json")) (some (lit "uid-a"))]
        demoExportEnv demoMigOracle false (lit "out") true true [] = Except.ok r ∧
      r.summary.SchemaUpdateSuccess + r.summary.SchemaUpdateFailed.length ≤
        r.summary.TotalDashboards ∧
      r.summary.MigrationSuccess + r.summary.MigrationFailed.length ≤
        r.summary.TotalDashboards := by
  obtain ⟨r, hr⟩ : ∃ r, runPipeline
      [InputFile.mk (lit "a.json") (some (lit "a.json")) (some (lit "uid-a"))]
      demoExportEnv demoMigOracle false (lit "out") true true [] = Except.ok r := ⟨_, rfl⟩
  have h := summary_counts_bounded _ _ _ _ _ _ _ _ _ hr
  exact ⟨r, hr, h.1, h.2.2 rfl⟩

/-! ### File discovery -/

/-- A directory tree: each entry is a file or a subdirectory. -/
inductive FSEntry where
  | file (name : Str)
  | dir (name : Str) (children : List FSEntry)

def entryName : FSEntry → Str
  | FSEntry.file n => n
  | FSEntry.dir n _ => n

/-- The case-insensitive `.json` check of the recursive walk (main.go:208):
`strings.HasSuffix(strings.ToLower(info.Name()), ".json")`. -/
def hasJsonSuffixCI (n : Str) : Bool :=
  (lit ".json").isSuffixOf (n.map Char.toLower)

/-- The glob pattern `*.json` (main.go:218): `filepath.Match` is
case-sensitive, so a name matches exactly when it ends in the literal
lowercase `.json`. -/
def matchesGlobJson (n : Str) : Bool := (lit ".json").isSuffixOf n

mutual
/-- `filepath.Walk` visiting one entry (main.go:204-212): non-directory
files with a case-insensitive `.json` suffix are collected; directories are
descended into. -/
def collectEntry (pre : Str) : FSEntry → List Str
  | FSEntry.file n => if hasJsonSuffixCI n then [pathJoin pre n] else []
  | FSEntry.dir n cs => collectEntries (pathJoin pre n) cs

def collectEntries (pre : Str) : List FSEntry → List Str
  | [] => []
  | e :: es => collectEntry pre e ++ collectEntries pre es
end

/-- `collectJSONFiles` (main.go:199-226): recursive mode walks the whole
tree with a case-insensitive suffix check; non-recursive mode is
`filepath.Glob(filepath.Join(inputDir, "*.json"))`, which matches direct
children (directories included) case-sensitively. -/
def collectJSONFiles (recursive : Bool) (inputDir : Str) (root : List FSEntry) : List Str :=
  if recursive then collectEntries inputDir root
  else root.filterMap fun e =>
    if matchesGlobJson (entryName e) then some (pathJoin inputDir (entryName e)) else none

mutual
/-- Every file node in an entry, as (full path, name) pairs. -/
def allFilesEntry (pre : Str) : FSEntry → List (Str × Str)
  | FSEntry.file n => [(pathJoin pre n, n)]
  | FSEntry.dir n cs => allFilesEntries (pathJoin pre n) cs

def allFilesEntries (pre : Str) : List FSEntry → List (Str × Str)
  | [] => []
  | e :: es => allFilesEntry pre e ++ allFilesEntries pre es
end

mutual
theorem collectEntry_eq (pre : Str) (e : FSEntry) :
    collectEntry pre e = (allFilesEntry pre e).filterMap
      (fun pn => if hasJsonSuffixCI pn.2 then some pn.1 else none) := by
  cases e with
  | file n =>
    by_cases h : hasJsonSuffixCI n = true
    · simp [collectEntry, allFilesEntry, List.filterMap_cons, h]
    · simp [collectEntry, allFilesEntry, List.filterMap_cons, h]
  | dir n cs =>
    rw [collectEntry, allFilesEntry, collectEntries_eq]

theorem collectEntries_eq (pre : Str) (es : List FSEntry) :
    collectEntries pre es = (allFilesEntries pre es).filterMap
      (fun pn => if hasJsonSuffixCI pn.2 then some pn.1 else none) := by
  cases es with
  | nil => rfl
  | cons e es =>
    rw [collectEntries, allFilesEntries, List.filterMap_append,
      collectEntry_eq, collectEntries_eq]
end

/-- Claim C2 (amended): non-recursive discovery returns exactly the direct
children whose name ends in the literal lowercase `.json` (the glob match
is case-sensitive), while recursive discovery returns exactly the files
anywhere in the tree whose name ends in `.json` case-insensitively; a
direct child named `A.JSON` is therefore discovered only in recursive
mode. -/
theorem collect_json_characterization :
    (∀ (inputDir p : Str) (root : List FSEntry),
      (p ∈ collectJSONFiles false inputDir root ↔
        ∃ e ∈ root, matchesGlobJson (entryName e) = true ∧
          p = pathJoin inputDir (entryName e)) ∧
      (p ∈ collectJSONFiles true inputDir root ↔
        ∃ pn ∈ allFilesEntries inputDir root, hasJsonSuffixCI pn.2 = true ∧ p = pn.1)) ∧
    hasJsonSuffixCI (lit "A.JSON") = true ∧
    collectJSONFiles false (lit "in") [FSEntry.file (lit "A.JSON")] = [] ∧
    collectJSONFiles true (lit "in") [FSEntry.file (lit "A.JSON")] =
      [pathJoin (lit "in") (lit "A.JSON")] := by
  refine ⟨?_, by decide, by decide, by decide⟩
  intro inputDir p root
  constructor
  · rw [collectJSONFiles, if_neg (by simp)]
    rw [List.mem_filterMap]
    constructor
    · rintro ⟨e, he, hmatch⟩
      by_cases h : matchesGlobJson (entryName e) = true
      · rw [if_pos h] at hmatch
        injection hmatch with hp
        exact ⟨e, he, h, hp.symm⟩
      · rw [if_neg h] at hmatch
        exact Option.noConfusion hmatch
    · rintro ⟨e, he, h, rfl⟩
      exact ⟨e, he, by rw [if_pos h]⟩
  · rw [collectJSONFiles, if_pos rfl, collectEntries_eq, List.mem_filterMap]
    constructor
    · rintro ⟨pn, hpn, hmatch⟩
      by_cases h : hasJsonSuffixCI pn.2 = true
      · rw [if_pos h] at hmatch
        injection hmatch with hp
        exact ⟨pn, hpn, h, hp.symm⟩
      · rw [if_neg h] at hmatch
        exact Option.noConfusion hmatch
    · rintro ⟨pn, hpn, h, rfl⟩
      exact ⟨pn, hpn, by rw [if_pos h]⟩

/-- Counterexample to claim C2 as stated: `A.JSON` has a case-insensitive
`.json` suffix yet non-recursive discovery (a case-sensitive glob) does not
return it, while recursive discovery does. -/
theorem nonrecursive_misses_uppercase_json :
    hasJsonSuffixCI (lit "A.JSON") = true ∧
    collectJSONFiles false (lit "in") [FSEntry.file (lit "A.JSON")] = [] ∧
    collectJSONFiles true (lit "in") [FSEntry.file (lit "A.JSON")] =
      [pathJoin (lit "in") (lit "A.JSON")] := by
  decide

/-- The per-file records the schema stage builds from the discovered paths
(main.go:245-254): base name plus the per-file oracles. -/
def discoveredInputFiles (recursive : Bool) (inputDir : Str) (root : List FSEntry)
    (rel imp : Str → Option Str) : List InputFile :=
  (collectJSONFiles recursive inputDir root).map fun p => ⟨baseName p, rel p, imp p⟩

/-- Claim C9: when discovery finds zero matching files under the input
root, the schema stage returns a fatal error (which `main` turns into
`log.Fatalf`) and no import call is made against the backing service. -/
theorem zero_files_fatal (recursive : Bool) (inputDir : Str) (root : List FSEntry)
    (rel imp : Str → Option Str)
    (hzero : collectJSONFiles recursive inputDir root = []) :
    (updateGrafanaSchemasToLatestVersion
        (discoveredInputFiles recursive inputDir root rel imp)).1 =
      Except.error (lit "no JSON files found in directory") ∧
    (updateGrafanaSchemasToLatestVersion
        (discoveredInputFiles recursive inputDir root rel imp)).2 = [] := by
  rw [discoveredInputFiles, hzero]
  exact ⟨rfl, rfl⟩

theorem zero_files_fatal_witness :
    (updateGrafanaSchemasToLatestVersion
        (discoveredInputFiles false (lit "in") [FSEntry.file (lit "notes.txt")]
          (fun p => some p) (fun _ => some (lit "uid")))).1 =
      Except.error (lit "no JSON files found in directory") ∧
    (updateGrafanaSchemasToLatestVersion
        (discoveredInputFiles false (lit "in") [FSEntry.file (lit "notes.txt")]
          (fun p => some p) (fun _ => some (lit "uid")))).2 = [] :=
  zero_files_fatal false (lit "in") [FSEntry.file (lit "notes.txt")]
    (fun p => some p) (fun _ => some (lit "uid")) (by decide)

end GrafanaToPerses
